import Mathlib

/-!
Verification of the XP award engine (`xp_agent.py`).

The development shallowly embeds the agent's core functions:

* `extract_task_summary` — normalises a raw Notion page into a `TaskSummary`;
* `compute_xp_from_due`  — the pure XP score from a due date and "now";
* `groq_match_task`      — classifier-first matching with the deterministic
  heuristic fallback;
* `log_to_ledger`        — best-effort ledger append;
* `award_xp`             — the request orchestrator.

Timestamps are modelled as rational numbers of seconds (the Python code works
with timezone-aware datetimes and derives everything from
`(due - now).total_seconds()`; after timezone resolution a datetime is just a
point on the real line, and all arithmetic the code performs on it is exact at
microsecond granularity, so ℚ is a faithful carrier).  External effects
(the Notion HTTP calls, the Groq client) are passed in as explicit outcome
values; an `Effects` record mirrors which side-effecting calls the control
flow actually reaches.
-/

/-- Python's `needle in hay` on strings: contiguous-substring containment,
tested at every suffix of `hay`. -/
def containsSeq (needle : List Char) : List Char → Bool
  | [] => needle.isEmpty
  | c :: t => needle.isPrefixOf (c :: t) || containsSeq needle t

/-- Python's `needle in hay` lifted to `String`. -/
def strIn (needle hay : String) : Bool :=
  containsSeq needle.data hay.data

/-- Model of Python's `str.lower()` (character-wise lowering). -/
def lowerStr (s : String) : String :=
  ⟨s.data.map Char.toLower⟩

/-- Model of Python's `str.strip()`: drop whitespace from both ends. -/
def pyStrip (s : String) : String :=
  ⟨((s.data.dropWhile Char.isWhitespace).reverse.dropWhile Char.isWhitespace).reverse⟩

/-- Auxiliary for `splitWs`: accumulate the current word (reversed) while
scanning. -/
def splitWsAux : List Char → List Char → List String
  | [], cur => if cur = [] then [] else [⟨cur.reverse⟩]
  | c :: rest, cur =>
    if c.isWhitespace then
      if cur = [] then splitWsAux rest []
      else ⟨cur.reverse⟩ :: splitWsAux rest []
    else splitWsAux rest (c :: cur)

/-- Model of Python's `str.split()` with no argument: split on runs of
whitespace, never producing empty words. -/
def splitWs (s : String) : List String :=
  splitWsAux s.data []

/-- The normalised task record built by `extract_task_summary`
(`xp_agent.py:77-83`). -/
structure TaskSummary where
  id : String
  title : String
  context : String
  due_date : Option ℚ
  xp : Option ℤ
deriving DecidableEq, Repr

/-- The value returned by `groq_match_task` on success: a task plus the
justification string. -/
structure MatchResult where
  task : TaskSummary
  reason : String
deriving DecidableEq, Repr

/-- A raw Notion page as `extract_task_summary` consumes it
(`xp_agent.py:56-83`).  `taskTitleTexts` is the list of `plain_text` fragments
of the `Task` title property — `props.get("Task", {}).get("title", [])` yields
`[]` when the property is absent, so absence and an empty fragment list
coincide.  `dueStart = some s` means the `Due Date` property is present with a
truthy `date.start` string `s`; every other nesting of absence collapses to
`none`. -/
structure RawPage where
  id : String
  taskTitleTexts : List String
  contextPresent : Bool
  contextTexts : List String
  dueStart : Option String
  xpNumber : Option ℤ
deriving DecidableEq, Repr

/-- `extract_task_summary` (`xp_agent.py:56-83`).  `parseIso` models
`datetime.fromisoformat`, returning `none` when the Python call would raise
(the code swallows that exception and keeps `due_date = None`). -/
def extract_task_summary (parseIso : String → Option ℚ) (page : RawPage) :
    TaskSummary :=
  { id := page.id
    title := pyStrip (String.join page.taskTitleTexts)
    context := if page.contextPresent then pyStrip (String.join page.contextTexts) else ""
    due_date :=
      match page.dueStart with
      | some s => parseIso s
      | none => none
    xp := page.xpNumber }

/-- `compute_xp_from_due` (`xp_agent.py:86-106`).  `due` and `now` are
timestamps in seconds; `(due_date - now).total_seconds() / 3600.0` becomes
exact rational arithmetic.  Python's `int(x // 24)` and `math.floor(x / 24)`
are both `⌊x / 24⌋` on the values reached here. -/
def compute_xp_from_due (due : Option ℚ) (now : ℚ) : ℤ :=
  match due with
  | none => 15
  | some due_date =>
    let delta_hours : ℚ := (due_date - now) / 3600
    if 0 < delta_hours then
      let bonus : ℤ := min 5 ⌊delta_hours / 24⌋
      let xp : ℤ := 15 + bonus
      min (max 1 xp) 50
    else
      let days_late : ℤ := ⌊|delta_hours| / 24⌋
      let penalty : ℤ := days_late * 3
      let xp : ℤ := max 2 (15 - penalty)
      min (max 1 xp) 50

/-- The per-candidate score of the heuristic fallback
(`xp_agent.py:166-171`); `msg` is the already-lowercased message.  The code
guards each summand with Python truthiness of the field (`if c["title"] and
...`, `if c["context"] and ...`), hence the non-emptiness conjuncts. -/
def heuristic_score (msg : String) (c : TaskSummary) : Nat :=
  (if c.title ≠ "" ∧ strIn (lowerStr c.title) msg then 10 else 0) +
  (if c.context ≠ "" ∧ (splitWs c.context).any (fun w => strIn (lowerStr w) msg)
    then 3 else 0)

/-- The accumulator loop of the heuristic fallback (`xp_agent.py:165-173`):
`best` is replaced exactly when the candidate's score is positive and strictly
beats the best so far. -/
def select_best (score : TaskSummary → Nat) :
    List TaskSummary → Option (Nat × TaskSummary) → Option (Nat × TaskSummary)
  | [], best => best
  | c :: rest, best =>
    let s := score c
    let newBest :=
      match best with
      | none => if 0 < s then some (s, c) else none
      | some (bs, bc) => if 0 < s ∧ bs < s then some (s, c) else some (bs, bc)
    select_best score rest newBest

/-- The heuristic fallback path of `groq_match_task` (`xp_agent.py:163-176`):
lowercase the message, run the scoring loop, and wrap a hit with the fixed
reason string. -/
def heuristic_match (message : String) (candidates : List TaskSummary) :
    Option MatchResult :=
  match select_best (heuristic_score (lowerStr message)) candidates none with
  | some (_, c) => some ⟨c, "Heuristic match"⟩
  | none => none

/-- Outcome type of one classifier consultation: the parsed `{index, reason}`
pair on success (index 1-based, as the prompt demands), or the message of
whatever exception the `try` block raised (network error, malformed JSON,
non-integer index, ...). -/
abbrev Classifier := String → List TaskSummary → Except String (ℤ × String)

/-- `groq_match_task` (`xp_agent.py:123-176`).  `client = none` models
`groq_client is None` (missing credentials or missing library).  The second
component of the result records whether the classifier was actually consulted.
The code computes `idx = index - 1` and accepts iff `0 <= idx <
len(candidates)`; every other path falls through to the heuristic. -/
def groq_match_task (client : Option Classifier) (message : String)
    (candidates : List TaskSummary) : Option MatchResult × Bool :=
  if candidates = [] then (none, false)
  else
    match client with
    | none => (heuristic_match message candidates, false)
    | some f =>
      match f message candidates with
      | .error _ => (heuristic_match message candidates, true)
      | .ok (index, reason) =>
        let idx := index - 1
        if h : 0 ≤ idx ∧ idx.toNat < candidates.length then
          (some ⟨candidates.get ⟨idx.toNat, h.2⟩, reason⟩, true)
        else
          (heuristic_match message candidates, true)

/-- `log_to_ledger` (`xp_agent.py:179-199`).  `ledgerId` is
`NOTION_XP_LEDGER_ID`; `post` is the outcome of the HTTP POST (status code, or
the raised exception's message).  The function returns `none` when no ledger
is configured, `some true` on HTTP 200/201, and `some false` otherwise —
every exception is caught inside, so it never propagates one. -/
def log_to_ledger (ledgerId : Option String) (post : Except String Nat) :
    Option Bool :=
  match ledgerId with
  | none => none
  | some _ =>
    match post with
    | .ok code => if code = 200 ∨ code = 201 then some true else some false
    | .error _ => some false

/-- The five response shapes `award_xp` can emit. -/
inductive Response where
  | badRequest (err : String)
  | noOpenTasks
  | noMatch
  | awarded (title reason : String) (xp : ℤ) (pageId : String) (patchResp : String)
  | serverError (err : String)
deriving DecidableEq, Repr

/-- Which side-effecting calls the control flow of `award_xp` reached:
whether the task-store query ran, which patch (page id, xp) was issued if any,
and whether `log_to_ledger` was called. -/
structure Effects where
  fetchAttempted : Bool
  patchCall : Option (String × ℤ)
  ledgerAttempted : Bool
deriving DecidableEq, Repr

/-- The `/award_xp` handler `award_xp` (`xp_agent.py:208-248`).
`body` is the outcome of `request.get_json` plus the two `.get` lookups
(`message`, `source`); `fetch` the outcome of `notion_query_open_tasks`;
`patch` the outcome of `patch_notion_task` per (page id, xp); `ledgerId` and
`ledgerPost` feed `log_to_ledger`.  Exceptions raised by the body parse, the
fetch or the patch hit the handler's outer `except` and become a 500 response
with the exception text. -/
def award_xp (body : Except String (Option String × Option String))
    (fetch : Except String (List RawPage)) (parseIso : String → Option ℚ)
    (client : Option Classifier) (now : ℚ)
    (patch : String → ℤ → Except String String)
    (ledgerId : Option String) (ledgerPost : Except String Nat) :
    Response × Effects :=
  match body with
  | .error e => (.serverError e, ⟨false, none, false⟩)
  | .ok (msgOpt, _srcOpt) =>
    let message := pyStrip (msgOpt.getD "")
    if message = "" then (.badRequest "Missing 'message'", ⟨false, none, false⟩)
    else
      match fetch with
      | .error e => (.serverError e, ⟨true, none, false⟩)
      | .ok pages =>
        let tasks := pages.map (extract_task_summary parseIso)
        if tasks = [] then (.noOpenTasks, ⟨true, none, false⟩)
        else
          match (groq_match_task client message tasks).1 with
          | none => (.noMatch, ⟨true, none, false⟩)
          | some m =>
            let xp := compute_xp_from_due m.task.due_date now
            match patch m.task.id xp with
            | .error e => (.serverError e, ⟨true, some (m.task.id, xp), false⟩)
            | .ok presp =>
              let _ := log_to_ledger ledgerId ledgerPost
              (.awarded m.task.title m.reason xp m.task.id presp,
               ⟨true, some (m.task.id, xp), true⟩)

/-- Generic selection predicate: candidate `c` beats threshold `b` and no
candidate of `l` outscores it.  `l.find?` of this predicate is the
"first candidate with the strictly highest positive score" once `b = 0`. -/
def scorePred (f : TaskSummary → Nat) (l : List TaskSummary) (b : Nat) :
    TaskSummary → Bool :=
  fun c => decide (b < f c ∧ ∀ x ∈ l, f x ≤ f c)

/-- The per-candidate score exactly as claim C2 words it: +10 if the title,
compared case-insensitively, is a substring of the message (no non-emptiness
guard), plus +3 if some whitespace-delimited token of the context appears
(case-insensitively) in the message. -/
def claim_score (msg : String) (c : TaskSummary) : Nat :=
  (if strIn (lowerStr c.title) (lowerStr msg) then 10 else 0) +
  (if (splitWs c.context).any (fun w => strIn (lowerStr w) (lowerStr msg))
    then 3 else 0)

/-- The selection rule as claim C2 words it: the first candidate (supply
order) whose score is positive and at least every other candidate's score;
`none` when no candidate scores above zero. -/
def claim_select (msg : String) (cs : List TaskSummary) : Option TaskSummary :=
  cs.find? fun c =>
    decide (0 < claim_score msg c ∧ ∀ x ∈ cs, claim_score msg x ≤ claim_score msg c)

/-- The amended per-candidate score: as `claim_score`, except that the +10
additionally requires the title to be non-empty (mirroring the code's
truthiness guard, which the counterexample shows is observable). -/
def amended_score (msg : String) (c : TaskSummary) : Nat :=
  (if c.title ≠ "" ∧ strIn (lowerStr c.title) (lowerStr msg) then 10 else 0) +
  (if (splitWs c.context).any (fun w => strIn (lowerStr w) (lowerStr msg))
    then 3 else 0)

/-- The amended selection rule: as `claim_select` but over `amended_score`. -/
def amended_select (msg : String) (cs : List TaskSummary) : Option TaskSummary :=
  cs.find? fun c =>
    decide (0 < amended_score msg c ∧ ∀ x ∈ cs, amended_score msg x ≤ amended_score msg c)

/-! ### XP calculator lemmas -/

/-- On a strictly future due date the clamp is inert and the score is the base
plus the capped day bonus. -/
theorem compute_future (d now : ℚ) (h : now < d) :
    compute_xp_from_due (some d) now = 15 + min 5 ⌊(d - now) / 3600 / 24⌋ := by
  have hpos : (0:ℚ) < (d - now) / 3600 := div_pos (sub_pos.mpr h) (by norm_num)
  have hfl : (0:ℤ) ≤ ⌊(d - now) / 3600 / 24⌋ :=
    Int.floor_nonneg.mpr (div_nonneg hpos.le (by norm_num))
  have hle : min 5 ⌊(d - now) / 3600 / 24⌋ ≤ 5 := min_le_left _ _
  have hge : (0:ℤ) ≤ min 5 ⌊(d - now) / 3600 / 24⌋ := le_min (by norm_num) hfl
  simp only [compute_xp_from_due, if_pos hpos]
  omega

/-- On a due date at or before `now` the clamp is inert and the score is the
base minus the per-day penalty, floored at 2. -/
theorem compute_late (d now : ℚ) (h : d ≤ now) :
    compute_xp_from_due (some d) now = max 2 (15 - ⌊(now - d) / 3600 / 24⌋ * 3) := by
  have hnp : ¬ (0:ℚ) < (d - now) / 3600 := by
    rw [not_lt]
    exact div_nonpos_iff.mpr (Or.inr ⟨by linarith, by norm_num⟩)
  have habs : |(d - now) / 3600| = (now - d) / 3600 := by
    rw [abs_of_nonpos (div_nonpos_iff.mpr (Or.inr ⟨by linarith, by norm_num⟩))]
    ring
  have hfl : (0:ℤ) ≤ ⌊(now - d) / 3600 / 24⌋ :=
    Int.floor_nonneg.mpr (div_nonneg (div_nonneg (by linarith) (by norm_num)) (by norm_num))
  simp only [compute_xp_from_due, if_neg hnp, habs]
  omega

/-- The score always lands in `[2, 20]` (shared by the range claims). -/
theorem compute_bounds (due : Option ℚ) (now : ℚ) :
    2 ≤ compute_xp_from_due due now ∧ compute_xp_from_due due now ≤ 20 := by
  match due with
  | none => exact ⟨by norm_num [compute_xp_from_due], by norm_num [compute_xp_from_due]⟩
  | some d =>
    rcases le_or_lt d now with h | h
    · rw [compute_late d now h]
      have hfl : (0:ℤ) ≤ ⌊(now - d) / 3600 / 24⌋ :=
        Int.floor_nonneg.mpr (div_nonneg (div_nonneg (by linarith) (by norm_num)) (by norm_num))
      omega
    · rw [compute_future d now h]
      have hfl : (0:ℤ) ≤ ⌊(d - now) / 3600 / 24⌋ :=
        Int.floor_nonneg.mpr (div_nonneg (div_nonneg (by linarith) (by norm_num)) (by norm_num))
      have hle : min 5 ⌊(d - now) / 3600 / 24⌋ ≤ 5 := min_le_left _ _
      have hge : (0:ℤ) ≤ min 5 ⌊(d - now) / 3600 / 24⌋ := le_min (by norm_num) hfl
      omega

/-- C1: the XP calculator returns exactly the spec's formula — base 15 when
the due date is absent; `15 + min(5, floor(hours_until_due / 24))` when the
due date is strictly in the future; `max(2, 15 - 3 * floor(hours_overdue /
24))` when it is in the past; and the result lies in `[1, 50]`. -/
theorem xp_formula_spec (due : Option ℚ) (now : ℚ) :
    (due = none → compute_xp_from_due due now = 15) ∧
    (∀ d, due = some d → now < d →
      compute_xp_from_due due now = 15 + min 5 ⌊(d - now) / 3600 / 24⌋) ∧
    (∀ d, due = some d → d < now →
      compute_xp_from_due due now = max 2 (15 - 3 * ⌊(now - d) / 3600 / 24⌋)) ∧
    1 ≤ compute_xp_from_due due now ∧ compute_xp_from_due due now ≤ 50 := by
  obtain ⟨hlo, hhi⟩ := compute_bounds due now
  refine ⟨?_, ?_, ?_, by omega, by omega⟩
  · rintro rfl
    rfl
  · rintro d rfl hfut
    exact compute_future d now hfut
  · rintro d rfl hpast
    rw [compute_late d now hpast.le, mul_comm]

/-- Witness for C1 at concrete inputs: one day early, one day late, and no
due date. -/
theorem xp_formula_spec_witness :
    compute_xp_from_due (some 86400) 0 = 15 + min 5 ⌊((86400:ℚ) - 0) / 3600 / 24⌋ ∧
    compute_xp_from_due (some (-86400)) 0 = max 2 (15 - 3 * ⌊((0:ℚ) - -86400) / 3600 / 24⌋) ∧
    compute_xp_from_due none 0 = 15 :=
  ⟨(xp_formula_spec (some 86400) 0).2.1 86400 rfl (by norm_num),
   (xp_formula_spec (some (-86400)) 0).2.2.1 (-86400) rfl (by norm_num),
   (xp_formula_spec none 0).1 rfl⟩

/-- C8: for a fixed `now` the score is monotonically non-increasing as
lateness increases — if `d1` is no more late than `d2`, its score is at least
that of `d2`, across the future/past boundary included. -/
theorem score_antitone_lateness (now d1 d2 : ℚ) (h : now - d1 ≤ now - d2) :
    compute_xp_from_due (some d2) now ≤ compute_xp_from_due (some d1) now := by
  have hd : d2 ≤ d1 := by linarith
  rcases lt_or_le now d2 with h2 | h2
  · have h1 : now < d1 := lt_of_lt_of_le h2 hd
    rw [compute_future d1 now h1, compute_future d2 now h2]
    have hfl : ⌊(d2 - now) / 3600 / 24⌋ ≤ ⌊(d1 - now) / 3600 / 24⌋ := by
      gcongr
    omega
  · rcases lt_or_le now d1 with h1 | h1
    · rw [compute_future d1 now h1, compute_late d2 now h2]
      have hp : (0:ℤ) ≤ ⌊(now - d2) / 3600 / 24⌋ :=
        Int.floor_nonneg.mpr (div_nonneg (div_nonneg (by linarith) (by norm_num)) (by norm_num))
      have hb : (0:ℤ) ≤ min 5 ⌊(d1 - now) / 3600 / 24⌋ :=
        le_min (by norm_num)
          (Int.floor_nonneg.mpr (div_nonneg (div_nonneg (by linarith) (by norm_num)) (by norm_num)))
      omega
    · rw [compute_late d1 now h1, compute_late d2 now h2]
      have hfl : ⌊(now - d1) / 3600 / 24⌋ ≤ ⌊(now - d2) / 3600 / 24⌋ := by
        gcongr
      omega

/-- Witness for C8: the on-time task scores no more than the one finished a
day early. -/
theorem score_antitone_lateness_witness :
    (0:ℚ) - 86400 ≤ (0:ℚ) - 0 ∧
    compute_xp_from_due (some 0) 0 ≤ compute_xp_from_due (some 86400) 0 :=
  ⟨by norm_num, score_antitone_lateness 0 86400 0 (by norm_num)⟩

/-- C9: the result of the XP calculator always lies in the closed interval
`[2, 20]`, strictly tighter than the promised `[1, 50]`, so the outer clamp is
never the binding constraint. -/
theorem xp_range_tight (due : Option ℚ) (now : ℚ) :
    2 ≤ compute_xp_from_due due now ∧ compute_xp_from_due due now ≤ 20 :=
  compute_bounds due now

/-! ### Matcher lemmas -/

/-- Two predicates that agree on every member of a list give the same
`find?` result. -/
theorem findQ_ext {α : Type} (l : List α) {p q : α → Bool}
    (h : ∀ x ∈ l, p x = q x) : l.find? p = l.find? q := by
  induction l with
  | nil => rfl
  | cons a t ih =>
    have ha := h a (List.mem_cons_self a t)
    have ht : t.find? p = t.find? q := ih fun x hx => h x (List.mem_cons_of_mem a hx)
    cases hq : q a with
    | true => simp [List.find?, ha, hq]
    | false => simp [List.find?, ha, hq, ht]

/-- If everything in `l` scores at most `k`, no member passes `scorePred f l k`. -/
theorem find_scorePred_none (f : TaskSummary → Nat) (l : List TaskSummary) (k : Nat)
    (hall : ∀ x ∈ l, f x ≤ k) : l.find? (scorePred f l k) = none := by
  rw [List.find?_eq_none]
  intro x hx hpx
  simp only [scorePred, decide_eq_true_eq] at hpx
  exact absurd hpx.1 (not_lt.mpr (hall x hx))

/-- A nonempty set of scores above `k` contains a maximiser above `k`. -/
theorem exists_top (f : TaskSummary → Nat) (l : List TaskSummary) (k : Nat)
    (h : ∃ y ∈ l, k < f y) : ∃ m ∈ l, k < f m ∧ ∀ x ∈ l, f x ≤ f m := by
  obtain ⟨y, hy, hky⟩ := h
  cases hm : List.argmax f l with
  | none =>
    rw [List.argmax_eq_none] at hm
    subst hm
    cases hy
  | some m =>
    have hmem : m ∈ List.argmax f l := by rw [Option.mem_def, hm]
    have hmax : ∀ x ∈ l, f x ≤ f m := fun x hx => List.le_of_mem_argmax hx hmem
    exact ⟨m, List.argmax_mem hmem, lt_of_lt_of_le hky (hmax y hy), hmax⟩

/-- If some member of `l` scores above `k`, `find?` of `scorePred f l k`
succeeds (the first maximiser passes it). -/
theorem find_scorePred_some (f : TaskSummary → Nat) (l : List TaskSummary) (k : Nat)
    (h : ∃ y ∈ l, k < f y) : ∃ x, l.find? (scorePred f l k) = some x := by
  obtain ⟨m, hml, hkm, hmax⟩ := exists_top f l k h
  cases hfind : l.find? (scorePred f l k) with
  | some x => exact ⟨x, rfl⟩
  | none =>
    exfalso
    apply List.find?_eq_none.mp hfind m hml
    simp only [scorePred, decide_eq_true_eq]
    exact ⟨hkm, hmax⟩

/-- The heuristic loop, started with a positive best score `b`, returns the
first candidate strictly beating `b` that no other candidate outscores, and
keeps the accumulator otherwise. -/
theorem select_best_acc (f : TaskSummary → Nat) (cs : List TaskSummary) :
    ∀ (b : Nat) (bc : TaskSummary), 0 < b →
      select_best f cs (some (b, bc)) =
        (match cs.find? (scorePred f cs b) with
          | some c => some (f c, c)
          | none => some (b, bc)) := by
  induction cs with
  | nil => intro b bc _; rfl
  | cons c rest ih =>
    intro b bc hb
    simp only [select_best]
    by_cases hc : b < f c
    · have h0c : 0 < f c := lt_trans hb hc
      rw [if_pos ⟨h0c, hc⟩, ih (f c) c h0c]
      by_cases hall : ∀ x ∈ rest, f x ≤ f c
      · rw [find_scorePred_none f rest (f c) hall]
        have hPc : scorePred f (c :: rest) b c = true := by
          simp only [scorePred, decide_eq_true_eq]
          refine ⟨hc, ?_⟩
          intro x hx
          rcases List.mem_cons.mp hx with rfl | hx
          · exact le_refl _
          · exact hall x hx
        rw [List.find?_cons_of_pos _ hPc]
      · push_neg at hall
        obtain ⟨y, hy, hfy⟩ := hall
        have hPc : ¬ scorePred f (c :: rest) b c = true := by
          simp only [scorePred, decide_eq_true_eq]
          rintro ⟨-, hmax⟩
          exact absurd (hmax y (List.mem_cons_of_mem c hy)) (not_le.mpr hfy)
        rw [List.find?_cons_of_neg _ hPc]
        obtain ⟨x, hx⟩ := find_scorePred_some f rest (f c) ⟨y, hy, hfy⟩
        have hcong : rest.find? (scorePred f rest (f c)) =
            rest.find? (scorePred f (c :: rest) b) := by
          apply findQ_ext
          intro z hz
          by_cases hallz : ∀ w ∈ rest, f w ≤ f z
          · have h1 : f c < f z := lt_of_lt_of_le hfy (hallz y hy)
            simp only [scorePred, List.mem_cons, decide_eq_true_eq]
            rw [decide_eq_true, decide_eq_true]
            · exact ⟨lt_trans hc h1, fun x hxm => by
                rcases List.mem_cons.mp hxm with rfl | hxm
                · exact h1.le
                · exact hallz x hxm⟩
            · exact ⟨h1, hallz⟩
          · push_neg at hallz
            obtain ⟨w, hw, hfw⟩ := hallz
            simp only [scorePred]
            rw [decide_eq_false, decide_eq_false]
            · rintro ⟨-, hmax⟩
              exact absurd (hmax w (List.mem_cons_of_mem c hw)) (not_le.mpr hfw)
            · rintro ⟨-, hmax⟩
              exact absurd (hmax w hw) (not_le.mpr hfw)
        have hx' : rest.find? (scorePred f (c :: rest) b) = some x := hcong ▸ hx
        rw [hx, hx']
    · rw [if_neg fun hand => hc hand.2, ih b bc hb]
      have hPc : ¬ scorePred f (c :: rest) b c = true := by
        simp only [scorePred, decide_eq_true_eq]
        rintro ⟨hbc, -⟩
        exact hc hbc
      rw [List.find?_cons_of_neg _ hPc]
      have hcong : rest.find? (scorePred f rest b) =
          rest.find? (scorePred f (c :: rest) b) := by
        apply findQ_ext
        intro z hz
        by_cases hbz : b < f z
        · by_cases hallz : ∀ w ∈ rest, f w ≤ f z
          · have hcz : f c ≤ f z := le_trans (not_lt.mp hc) hbz.le
            simp only [scorePred]
            rw [decide_eq_true, decide_eq_true]
            · exact ⟨hbz, fun x hxm => by
                rcases List.mem_cons.mp hxm with rfl | hxm
                · exact hcz
                · exact hallz x hxm⟩
            · exact ⟨hbz, hallz⟩
          · push_neg at hallz
            obtain ⟨w, hw, hfw⟩ := hallz
            simp only [scorePred]
            rw [decide_eq_false, decide_eq_false]
            · rintro ⟨-, hmax⟩
              exact absurd (hmax w (List.mem_cons_of_mem c hw)) (not_le.mpr hfw)
            · rintro ⟨-, hmax⟩
              exact absurd (hmax w hw) (not_le.mpr hfw)
        · simp only [scorePred]
          rw [decide_eq_false, decide_eq_false]
          · rintro ⟨hbz', -⟩
            exact hbz hbz'
          · rintro ⟨hbz', -⟩
            exact hbz hbz'
      rw [hcong]

/-- The heuristic loop started empty returns the first candidate with a
positive score that no other candidate outscores, and `none` when every score
is zero. -/
theorem select_best_none (f : TaskSummary → Nat) (cs : List TaskSummary) :
    select_best f cs none =
      (match cs.find? (scorePred f cs 0) with
        | some c => some (f c, c)
        | none => none) := by
  induction cs with
  | nil => rfl
  | cons c rest ih =>
    simp only [select_best]
    by_cases h0 : 0 < f c
    · rw [if_pos h0, select_best_acc f rest (f c) c h0]
      by_cases hall : ∀ x ∈ rest, f x ≤ f c
      · rw [find_scorePred_none f rest (f c) hall]
        have hPc : scorePred f (c :: rest) 0 c = true := by
          simp only [scorePred, decide_eq_true_eq]
          refine ⟨h0, ?_⟩
          intro x hx
          rcases List.mem_cons.mp hx with rfl | hx
          · exact le_refl _
          · exact hall x hx
        rw [List.find?_cons_of_pos _ hPc]
      · push_neg at hall
        obtain ⟨y, hy, hfy⟩ := hall
        have hPc : ¬ scorePred f (c :: rest) 0 c = true := by
          simp only [scorePred, decide_eq_true_eq]
          rintro ⟨-, hmax⟩
          exact absurd (hmax y (List.mem_cons_of_mem c hy)) (not_le.mpr hfy)
        rw [List.find?_cons_of_neg _ hPc]
        obtain ⟨x, hx⟩ := find_scorePred_some f rest (f c) ⟨y, hy, hfy⟩
        have hcong : rest.find? (scorePred f rest (f c)) =
            rest.find? (scorePred f (c :: rest) 0) := by
          apply findQ_ext
          intro z hz
          by_cases hallz : ∀ w ∈ rest, f w ≤ f z
          · have h1 : f c < f z := lt_of_lt_of_le hfy (hallz y hy)
            simp only [scorePred]
            rw [decide_eq_true, decide_eq_true]
            · exact ⟨lt_of_le_of_lt (Nat.zero_le _) h1, fun x hxm => by
                rcases List.mem_cons.mp hxm with rfl | hxm
                · exact h1.le
                · exact hallz x hxm⟩
            · exact ⟨h1, hallz⟩
          · push_neg at hallz
            obtain ⟨w, hw, hfw⟩ := hallz
            simp only [scorePred]
            rw [decide_eq_false, decide_eq_false]
            · rintro ⟨-, hmax⟩
              exact absurd (hmax w (List.mem_cons_of_mem c hw)) (not_le.mpr hfw)
            · rintro ⟨-, hmax⟩
              exact absurd (hmax w hw) (not_le.mpr hfw)
        have hx' : rest.find? (scorePred f (c :: rest) 0) = some x := hcong ▸ hx
        rw [hx, hx']
    · rw [if_neg h0, ih]
      have hPc : ¬ scorePred f (c :: rest) 0 c = true := by
        simp only [scorePred, decide_eq_true_eq]
        rintro ⟨h0', -⟩
        exact h0 h0'
      rw [List.find?_cons_of_neg _ hPc]
      have hcz : f c = 0 := Nat.eq_zero_of_not_pos h0
      have hcong : rest.find? (scorePred f rest 0) =
          rest.find? (scorePred f (c :: rest) 0) := by
        apply findQ_ext
        intro z hz
        by_cases hbz : 0 < f z
        · by_cases hallz : ∀ w ∈ rest, f w ≤ f z
          · simp only [scorePred]
            rw [decide_eq_true, decide_eq_true]
            · exact ⟨hbz, fun x hxm => by
                rcases List.mem_cons.mp hxm with rfl | hxm
                · omega
                · exact hallz x hxm⟩
            · exact ⟨hbz, hallz⟩
          · push_neg at hallz
            obtain ⟨w, hw, hfw⟩ := hallz
            simp only [scorePred]
            rw [decide_eq_false, decide_eq_false]
            · rintro ⟨-, hmax⟩
              exact absurd (hmax w (List.mem_cons_of_mem c hw)) (not_le.mpr hfw)
            · rintro ⟨-, hmax⟩
              exact absurd (hmax w hw) (not_le.mpr hfw)
        · simp only [scorePred]
          rw [decide_eq_false, decide_eq_false]
          · rintro ⟨hbz', -⟩
            exact hbz hbz'
          · rintro ⟨hbz', -⟩
            exact hbz hbz'
      rw [hcong]

/-- The amended claim's score coincides with the code's heuristic score
applied to the lowercased message: the only delta between the claim's wording
and the code — beyond the title guard the amendment adds — is the code's
redundant truthiness guard on `context`, which changes nothing because an
empty context has no tokens. -/
theorem amended_score_eq (msg : String) (c : TaskSummary) :
    amended_score msg c = heuristic_score (lowerStr msg) c := by
  unfold amended_score heuristic_score
  rcases eq_or_ne c.context "" with hctx | hctx
  · rw [hctx]
    simp [splitWs, splitWsAux]
  · simp [hctx]

/-- C2 (amended): on every message and non-empty candidate list, the code's
heuristic path returns exactly the first candidate whose amended score
(+10 only for a non-empty, case-insensitively contained title; +3 for a
context-token hit) is positive and not outscored by any other candidate, and
`none` when no candidate scores above zero. -/
theorem heuristic_select_amended (msg : String) (cs : List TaskSummary)
    (h : cs ≠ []) :
    (heuristic_match msg cs).map MatchResult.task = amended_select msg cs := by
  unfold heuristic_match amended_select
  rw [select_best_none]
  have hpred : (fun c => decide (0 < amended_score msg c ∧
      ∀ x ∈ cs, amended_score msg x ≤ amended_score msg c)) =
      scorePred (heuristic_score (lowerStr msg)) cs 0 := by
    funext c
    simp only [scorePred, amended_score_eq]
  rw [hpred]
  cases hfind : cs.find? (scorePred (heuristic_score (lowerStr msg)) cs 0) with
  | none => rfl
  | some c => rfl

/-- C2 as stated is false: a candidate whose title is empty is scored 10 by
the claim's formula (the empty string is a substring of every message) but 0
by the code, which guards on Python truthiness of the title; on the message
"x" the claim's rule selects the candidate while the code returns `none`. -/
theorem heuristic_empty_title_cex :
    (heuristic_match "x" [⟨"t1", "", "", none, none⟩]).map MatchResult.task ≠
      claim_select "x" [⟨"t1", "", "", none, none⟩] := by decide

/-- Witness for the amended C2: on "finished the report" against titles
"Report" and "Call client", the code returns "Report", agreeing with the
amended selection rule. -/
theorem heuristic_select_amended_witness :
    ([⟨"t1", "Report", "", none, none⟩, ⟨"t2", "Call client", "", none, none⟩]
        : List TaskSummary) ≠ [] ∧
    (heuristic_match "finished the report"
        [⟨"t1", "Report", "", none, none⟩, ⟨"t2", "Call client", "", none, none⟩]).map
        MatchResult.task =
      amended_select "finished the report"
        [⟨"t1", "Report", "", none, none⟩, ⟨"t2", "Call client", "", none, none⟩] :=
  ⟨by decide, heuristic_select_amended "finished the report" _ (by decide)⟩

/-- C7: with no candidates the matcher returns `none` for every classifier
configuration, and the flag recording a classifier consultation is `false` —
the classifier is never invoked. -/
theorem empty_candidates_no_classifier (client : Option Classifier)
    (message : String) :
    groq_match_task client message [] = (none, false) := rfl

/-- C3: whenever the classifier is unavailable, fails with any error, or
returns a 1-based index outside `[1, length(candidates)]`, the matcher's
result is exactly the heuristic result — no classifier error reaches the
caller, which also shows in the result type carrying no error channel. -/
theorem classifier_fallback_eq_heuristic (client : Option Classifier)
    (message : String) (cs : List TaskSummary) (h : cs ≠ [])
    (hcl : client = none ∨ ∃ f, client = some f ∧
      ((∃ e, f message cs = .error e) ∨
       (∃ idx r, f message cs = .ok (idx, r) ∧
         (idx < 1 ∨ (cs.length : ℤ) < idx)))) :
    (groq_match_task client message cs).1 = heuristic_match message cs := by
  rcases hcl with rfl | ⟨f, rfl, hf⟩
  · simp [groq_match_task, h]
  · rcases hf with ⟨e, he⟩ | ⟨idx, r, hok, hrange⟩
    · simp [groq_match_task, h, he]
    · have hnot : ¬ (1 ≤ idx ∧ idx.toNat - 1 < cs.length) := by omega
      simp [groq_match_task, h, hok, hnot]

/-- Witness for C3: with a classifier that reports index 5 on a single
candidate (out of range), the matcher agrees with the heuristic. -/
theorem classifier_fallback_eq_heuristic_witness :
    ([⟨"t1", "report", "", none, none⟩] : List TaskSummary) ≠ [] ∧
    (groq_match_task (some fun _ _ => .ok (5, "r")) "did the report"
        [⟨"t1", "report", "", none, none⟩]).1 =
      heuristic_match "did the report" [⟨"t1", "report", "", none, none⟩] :=
  ⟨by decide,
   classifier_fallback_eq_heuristic (some fun _ _ => .ok (5, "r"))
     "did the report" _ (by decide)
     (Or.inr ⟨_, rfl, Or.inr ⟨5, "r", rfl, by decide⟩⟩)⟩

/-! ### Extractor and orchestrator lemmas -/

/-- A string of whitespace strips to the empty string. -/
theorem pyStrip_eq_empty (s : String) (h : ∀ c ∈ s.data, c.isWhitespace = true) :
    pyStrip s = "" := by
  unfold pyStrip
  rw [List.dropWhile_eq_nil_iff.mpr h]
  decide

/-- C4 as stated is false: the extractor has no failure path at all — on a
raw record whose `Task` title property is absent it happily produces a
summary whose title is the empty string, contradicting both the
`MalformedRecord` contract and "never yields a summary whose title is
empty". -/
theorem extract_empty_title_cex :
    (extract_task_summary (fun _ => none)
        ⟨"p1", [], false, [], none, none⟩).title = "" := by decide

/-- C4 (amended): the extractor is total — every raw store record yields a
`TaskSummary`, with missing context/due-date/XP becoming absence — and when
the title field is absent the produced summary's title is the empty string;
no `MalformedRecord` failure exists in the code. -/
theorem extract_no_failure_amended (parseIso : String → Option ℚ)
    (page : RawPage) (h : page.taskTitleTexts = []) :
    (extract_task_summary parseIso page).title = "" := by
  show pyStrip (String.join page.taskTitleTexts) = ""
  rw [h]
  decide

/-- Witness for the amended C4: a record with no title texts but a context
and an XP number still extracts, with an empty title. -/
theorem extract_no_failure_amended_witness :
    (extract_task_summary (fun _ => none)
        ⟨"p2", [], true, ["ctx"], none, some 3⟩).title = "" :=
  extract_no_failure_amended (fun _ => none) ⟨"p2", [], true, ["ctx"], none, some 3⟩ rfl

/-- C10: a request whose message is missing, empty, or whitespace-only gets
the 400 "Missing 'message'" response, with no task-store fetch, no patch, and
no ledger attempt — the store is left untouched. -/
theorem missing_message_bad_request
    (fetch : Except String (List RawPage)) (parseIso : String → Option ℚ)
    (client : Option Classifier) (now : ℚ)
    (patch : String → ℤ → Except String String)
    (ledgerId : Option String) (ledgerPost : Except String Nat)
    (msgOpt srcOpt : Option String)
    (hmsg : msgOpt = none ∨
      ∃ s, msgOpt = some s ∧ ∀ c ∈ s.data, c.isWhitespace = true) :
    award_xp (.ok (msgOpt, srcOpt)) fetch parseIso client now patch ledgerId
        ledgerPost =
      (.badRequest "Missing 'message'", ⟨false, none, false⟩) := by
  have hempty : pyStrip (msgOpt.getD "") = "" := by
    rcases hmsg with rfl | ⟨s, rfl, hs⟩
    · decide
    · exact pyStrip_eq_empty s hs
  simp [award_xp, hempty]

/-- Witness for C10: a whitespace-only message is rejected with the 400
response and no effects. -/
theorem missing_message_bad_request_witness :
    ((some "   " : Option String) = none ∨
      ∃ s, (some "   " : Option String) = some s ∧
        ∀ c ∈ s.data, c.isWhitespace = true) ∧
    award_xp (.ok (some "   ", none)) (.ok []) (fun _ => none) none 0
        (fun _ _ => .ok "ack") none (.ok 200) =
      (.badRequest "Missing 'message'", ⟨false, none, false⟩) :=
  ⟨Or.inr ⟨"   ", rfl, by decide⟩,
   missing_message_bad_request (.ok []) (fun _ => none) none 0
     (fun _ _ => .ok "ack") none (.ok 200) (some "   ") none
     (Or.inr ⟨"   ", rfl, by decide⟩)⟩

/-- C5: when a task is matched and scored but the store patch fails, the
response surfaces the underlying store error (the handler's 500 with the
exception text) and the ledger append is never attempted — the award is
recorded nowhere. -/
theorem patch_failure_surfaced
    (body : Except String (Option String × Option String))
    (fetch : Except String (List RawPage)) (parseIso : String → Option ℚ)
    (client : Option Classifier) (now : ℚ)
    (patch : String → ℤ → Except String String)
    (ledgerId : Option String) (ledgerPost : Except String Nat)
    (msgOpt srcOpt : Option String) (pages : List RawPage) (m : MatchResult)
    (e : String)
    (hbody : body = .ok (msgOpt, srcOpt))
    (hmsg : pyStrip (msgOpt.getD "") ≠ "")
    (hfetch : fetch = .ok pages)
    (htasks : pages.map (extract_task_summary parseIso) ≠ [])
    (hmatch : (groq_match_task client (pyStrip (msgOpt.getD ""))
        (pages.map (extract_task_summary parseIso))).1 = some m)
    (hpatch : patch m.task.id (compute_xp_from_due m.task.due_date now) =
      .error e) :
    award_xp body fetch parseIso client now patch ledgerId ledgerPost =
      (.serverError e,
        ⟨true, some (m.task.id, compute_xp_from_due m.task.due_date now),
          false⟩) := by
  subst hbody hfetch
  simp [award_xp, hmsg, htasks, hmatch, hpatch]

/-- Witness for C5: heuristic match succeeds, the patch raises a network
error, and the response is the 500 carrying it with the ledger untouched. -/
theorem patch_failure_surfaced_witness :
    pyStrip ((some "did the report").getD "") ≠ "" ∧
    award_xp (.ok (some "did the report", none))
        (.ok [⟨"p1", ["report"], false, [], none, none⟩]) (fun _ => none) none 0
        (fun _ _ => .error "network down") (some "L") (.ok 200) =
      (.serverError "network down",
        ⟨true, some ("p1", compute_xp_from_due none 0), false⟩) :=
  ⟨by decide,
   patch_failure_surfaced (.ok (some "did the report", none))
     (.ok [⟨"p1", ["report"], false, [], none, none⟩]) (fun _ => none) none 0
     (fun _ _ => .error "network down") (some "L") (.ok 200)
     (some "did the report") none [⟨"p1", ["report"], false, [], none, none⟩]
     ⟨⟨"p1", "report", "", none, none⟩, "Heuristic match"⟩ "network down"
     rfl (by decide) rfl (by decide) (by decide) rfl⟩

/-- C6: once the flow reaches the ledger-logging step (successful patch), the
response is identical for any two ledger configurations and outcomes — a
ledger failure is swallowed and never changes what the caller sees. -/
theorem ledger_independent_response
    (body : Except String (Option String × Option String))
    (fetch : Except String (List RawPage)) (parseIso : String → Option ℚ)
    (client : Option Classifier) (now : ℚ)
    (patch : String → ℤ → Except String String)
    (ledgerId1 ledgerId2 : Option String) (post1 post2 : Except String Nat)
    (msgOpt srcOpt : Option String) (pages : List RawPage) (m : MatchResult)
    (presp : String)
    (hbody : body = .ok (msgOpt, srcOpt))
    (hmsg : pyStrip (msgOpt.getD "") ≠ "")
    (hfetch : fetch = .ok pages)
    (htasks : pages.map (extract_task_summary parseIso) ≠ [])
    (hmatch : (groq_match_task client (pyStrip (msgOpt.getD ""))
        (pages.map (extract_task_summary parseIso))).1 = some m)
    (hpatch : patch m.task.id (compute_xp_from_due m.task.due_date now) =
      .ok presp) :
    (award_xp body fetch parseIso client now patch ledgerId1 post1).1 =
      (award_xp body fetch parseIso client now patch ledgerId2 post2).1 := by
  subst hbody hfetch
  simp [award_xp, hmsg, htasks, hmatch, hpatch]

/-- Witness for C6: the response with a configured-but-failing ledger equals
the response with no ledger at all. -/
theorem ledger_independent_response_witness :
    pyStrip ((some "did the report").getD "") ≠ "" ∧
    (award_xp (.ok (some "did the report", none))
        (.ok [⟨"p1", ["report"], false, [], none, none⟩]) (fun _ => none) none 0
        (fun _ _ => .ok "ack") (some "L") (.error "ledger down")).1 =
      (award_xp (.ok (some "did the report", none))
        (.ok [⟨"p1", ["report"], false, [], none, none⟩]) (fun _ => none) none 0
        (fun _ _ => .ok "ack") none (.ok 200)).1 :=
  ⟨by decide,
   ledger_independent_response (.ok (some "did the report", none))
     (.ok [⟨"p1", ["report"], false, [], none, none⟩]) (fun _ => none) none 0
     (fun _ _ => .ok "ack") (some "L") none (.error "ledger down") (.ok 200)
     (some "did the report") none [⟨"p1", ["report"], false, [], none, none⟩]
     ⟨⟨"p1", "report", "", none, none⟩, "Heuristic match"⟩ "ack"
     rfl (by decide) rfl (by decide) (by decide) rfl⟩
